import Mathlib

/-!
Verification of the Nebula agent runtime against its specification.

The Python sources are shallowly embedded: each class becomes a structure,
each method a pure function (stateful methods return the updated state),
`datetime` instants become natural-number seconds, Python `dict`s become
association lists with distinct keys, and float scores become rationals.
`Dict[str, Any]` payload fields that no verified operation inspects
(task metadata, tool results, the mock embedding vector) are omitted.
-/

namespace Nebula

/-! ### Association lists standing in for Python dicts -/

/-- Lookup in a string-keyed association list (`d[k]` / `d.get(k)`). -/
def dictLookup {β : Type} : List (String × β) → String → Option β
  | [], _ => none
  | (k, v) :: rest, key => if k = key then some v else dictLookup rest key

/-- Assignment `d[k] = v`: replace the entry in place, or append a new one. -/
def dictInsert {β : Type} : List (String × β) → String → β → List (String × β)
  | [], key, v => [(key, v)]
  | (k, w) :: rest, key, v =>
      if k = key then (key, v) :: rest else (k, w) :: dictInsert rest key v

/-- Deletion `del d[k]` / `d.pop(k)`: remove the (first) entry with the key. -/
def dictErase {β : Type} (d : List (String × β)) (key : String) : List (String × β) :=
  d.eraseP (fun p => p.1 == key)

/-- Keys of an association list are pairwise distinct: every reachable
Python dict satisfies this. -/
def dictWF {β : Type} (d : List (String × β)) : Prop :=
  (d.map Prod.fst).Nodup

/-! ### Agent state (`agent_state.py`) -/

/-- Agent execution status (`AgentStatus(str, Enum)`). -/
inductive AgentStatus
  | idle
  | thinking
  | executing
  | waiting_human_input
  | completed
  | failed
deriving DecidableEq

/-- Task priority levels (`TaskPriority(str, Enum)`), in declared order. -/
inductive TaskPriority
  | critical
  | high
  | medium
  | low
deriving DecidableEq

/-- String value of a priority member: `TaskPriority` derives from `str`,
so `t.priority.value` is this string. -/
def TaskPriority.value : TaskPriority → String
  | .critical => "critical"
  | .high => "high"
  | .medium => "medium"
  | .low => "low"

/-- Task execution status (`TaskStatus(str, Enum)`). -/
inductive TaskStatus
  | pending
  | in_progress
  | blocked
  | completed
  | failed
deriving DecidableEq

/-- A task in the agent workflow.  The `metadata` and `result` payload dicts
are not inspected by any verified operation and are omitted. -/
structure Task where
  id : String
  name : String
  description : Option String
  priority : TaskPriority
  status : TaskStatus
  dependencies : List String
  assigned_agent : Option String
  created_at : Nat
  updated_at : Nat
deriving DecidableEq

/-- One element of `AgentState.error_log`: `log_error` appends
`{"timestamp", "error", "context"}`; the only context ever passed is the
trace list under the key `"trace"`. -/
structure ErrorEntry where
  timestamp : Nat
  error : String
  context_trace : List String
deriving DecidableEq

/-- Complete agent state.  The `memory`, `context` and `tool_results`
fields are not touched by any verified operation and are omitted. -/
structure AgentState where
  session_id : String
  status : AgentStatus
  current_task : Option Task
  task_queue : List Task
  completed_tasks : List Task
  agent_chain_trace : List String
  error_log : List ErrorEntry
  created_at : Nat
  last_activity : Nat
deriving DecidableEq

/-- Python string comparison `a <= b`: lexicographic by code point, with a
proper prefix ordered first. -/
def strLe : List Char → List Char → Bool
  | [], _ => true
  | _ :: _, [] => false
  | a :: as, b :: bs => if a < b then true else if b < a then false else strLe as bs

/-- Key comparison of `task_queue.sort(key=lambda t: t.priority.value)`:
ascending lexicographic order on the priority's *string* value. -/
def taskLe (t u : Task) : Bool :=
  strLe t.priority.value.data u.priority.value.data

/-- Stable insertion of a task into an already sorted queue segment: the new
task goes after every task whose key is less than or equal to its own. -/
def insertTask (a : Task) : List Task → List Task
  | [] => [a]
  | b :: bs => if taskLe b a then b :: insertTask a bs else a :: b :: bs

/-- Python's `list.sort` is a stable sort by the key; all stable sorts by
the same total key order agree, so it is modelled by the stable insertion
sort (left-to-right insertion keeps equal-key tasks in encounter order). -/
def stableSortTasks (l : List Task) : List Task :=
  l.foldl (fun acc a => insertTask a acc) []

namespace AgentState

/-- Method `add_task`: append to the queue, then re-sort the whole queue by
the priority's string value. -/
def add_task (s : AgentState) (task : Task) : AgentState :=
  { s with task_queue := stableSortTasks (s.task_queue ++ [task]) }

/-- A sequence of `add_task` calls, in order. -/
def addTasks (s : AgentState) (ts : List Task) : AgentState :=
  ts.foldl add_task s

/-- Method `get_next_task`: scan the queue in order and return the first
pending task all of whose dependency ids appear in `completed_tasks` with
completed status. -/
def get_next_task (s : AgentState) : Option Task :=
  s.task_queue.find? (fun task =>
    task.status == TaskStatus.pending &&
    task.dependencies.all (fun dep_id =>
      s.completed_tasks.any (fun t =>
        t.id == dep_id && t.status == TaskStatus.completed)))

/-- Method `update_status`: set the status and refresh `last_activity`. -/
def update_status (s : AgentState) (status : AgentStatus) (now : Nat) : AgentState :=
  { s with status := status, last_activity := now }

/-- Method `log_error`: append a timestamped entry to the error log. -/
def log_error (s : AgentState) (now : Nat) (error : String)
    (context_trace : List String) : AgentState :=
  { s with error_log := s.error_log ++ [⟨now, error, context_trace⟩] }

end AgentState

/-- Rank of a priority in the enumeration's *declared* order — the order the
claim asserts the queue is sorted by. -/
def declaredRank : TaskPriority → Nat
  | .critical => 0
  | .high => 1
  | .medium => 2
  | .low => 3

/-- A fresh pending task with no dependencies, used in concrete examples. -/
def mkTask (id name : String) (p : TaskPriority) : Task :=
  ⟨id, name, none, p, TaskStatus.pending, [], none, 0, 0⟩

/-- A fresh agent state for a session, all collections empty. -/
def initialAgentState (sid : String) : AgentState :=
  ⟨sid, AgentStatus.idle, none, [], [], [], [], 0, 0⟩

/-! ### Cache Memory Store (`cache_memory_store.py`) -/

/-- One cache slot: the stored value together with its expiry instant
(`{"value": ..., "expires_at": ...}`). -/
structure CacheEntry (α : Type) where
  value : α
  expires_at : Nat
deriving DecidableEq

/-- In-memory cache store with TTL support (`CacheMemoryStore.__init__`). -/
structure CacheMemoryStore (α : Type) where
  cache : List (String × CacheEntry α) := []
deriving DecidableEq

namespace CacheMemoryStore

/-- Method `set(key, value, ttl=3600)`: store the value with expiry
`utcnow() + ttl`.  The current instant is passed explicitly; the Python
default `ttl` of 3600 is supplied by callers here. -/
def set {α : Type} (s : CacheMemoryStore α) (now : Nat) (key : String) (value : α)
    (ttl : Nat) : CacheMemoryStore α :=
  ⟨dictInsert s.cache key ⟨value, now + ttl⟩⟩

/-- Method `get(key)`: return the value if present and unexpired; on an
expired entry, delete it lazily and return nothing.  Returns the answer
together with the (possibly shrunk) store. -/
def get {α : Type} (s : CacheMemoryStore α) (now : Nat) (key : String) :
    Option α × CacheMemoryStore α :=
  match dictLookup s.cache key with
  | none => (none, s)
  | some entry =>
      if now > entry.expires_at then (none, ⟨dictErase s.cache key⟩)
      else (some entry.value, s)

/-- Method `delete(key)`: remove the key, reporting whether it was present. -/
def delete {α : Type} (s : CacheMemoryStore α) (key : String) :
    Bool × CacheMemoryStore α :=
  match dictLookup s.cache key with
  | none => (false, s)
  | some _ => (true, ⟨dictErase s.cache key⟩)

/-- Method `clear_expired()`: drop every entry whose expiry lies strictly
before `now`, returning how many were dropped. -/
def clear_expired {α : Type} (s : CacheMemoryStore α) (now : Nat) :
    Nat × CacheMemoryStore α :=
  let expired := s.cache.filter (fun p => now > p.2.expires_at)
  (expired.length, ⟨s.cache.filter (fun p => ¬ now > p.2.expires_at)⟩)

/-- Method `get_stats()`: `(total_keys, active_keys, expired_keys)`, where
an entry is counted active when `now <= expires_at` and the expired count
is computed by subtraction, exactly as in the source. -/
def get_stats {α : Type} (s : CacheMemoryStore α) (now : Nat) : Nat × Nat × Nat :=
  let active_count := s.cache.countP (fun p => now ≤ p.2.expires_at)
  (s.cache.length, active_count, s.cache.length - active_count)

end CacheMemoryStore

/-- A pending task whose single declared dependency is the task id "t1". -/
def depTask : Task :=
  ⟨"t2", "dependent task", none, TaskPriority.medium, TaskStatus.pending, ["t1"], none, 0, 0⟩

/-- A completed task with id "t1". -/
def doneT1 : Task :=
  ⟨"t1", "done task", none, TaskPriority.medium, TaskStatus.completed, [], none, 0, 0⟩

/-- An agent state whose queue holds `depTask` and whose completed list
holds `doneT1`, so the dependency on "t1" is satisfied. -/
def gatingState : AgentState :=
  ⟨"w5", AgentStatus.idle, none, [depTask], [doneT1], [], [], 0, 0⟩

/-! ### Orchestrator error handling (`main_agent.py`) -/

/-- Workflow graph state (`WorkflowState` TypedDict).  The message list,
workflow context, user session, execution metadata, pending human input,
tool results and current agent fields are not touched by the error handler
and are omitted. -/
structure WorkflowState where
  agent_state : AgentState
  agent_chain_trace : List String
  next_action : Option String
  error : Option String
deriving DecidableEq

/-- Node `error_handler_node`: append "error_handler" to the trace, log the
current error (default "Unknown error") with the updated trace as context,
then with fewer than 3 accumulated errors signal "retry"; otherwise signal
"fail" and set the agent status to failed. -/
def error_handler_node (now : Nat) (state : WorkflowState) : WorkflowState :=
  let trace := state.agent_chain_trace ++ ["error_handler"]
  let ast := state.agent_state.log_error now (state.error.getD "Unknown error") trace
  let error_count := ast.error_log.length
  if error_count < 3 then
    { state with
      agent_chain_trace := trace,
      agent_state := ast,
      next_action := some "retry" }
  else
    { state with
      agent_chain_trace := trace,
      agent_state := ast.update_status AgentStatus.failed now,
      next_action := some "fail" }

/-- Conditional edge `handle_error_recovery`: route on `next_action`
("retry" loops back to the task planner, "fail" ends the run), defaulting
to "fail". -/
def handle_error_recovery (state : WorkflowState) : String :=
  state.next_action.getD "fail"

/-- A run suffering consecutive failures: each iteration raises an error (as
a failing tool node would), runs the error handler, and loops back to
planning only while the handler routes "retry".  The fuel argument bounds
the number of failures offered. -/
def failingRun (now : Nat) : Nat → WorkflowState → WorkflowState
  | 0, state => state
  | n + 1, state =>
      let state2 := error_handler_node now { state with error := some "tool failure" }
      if handle_error_recovery state2 = "retry" then failingRun now n state2 else state2

/-- Fresh workflow state for a session. -/
def initialWorkflowState (sid : String) : WorkflowState :=
  ⟨initialAgentState sid, [], none, none⟩

/-! ### WebSocket connection manager (`connection_manager.py`) -/

/-- Per-session metadata stored on connect (`{"tenant_id", "connected_at",
"last_activity"}`). -/
structure SessionMeta where
  tenant_id : String
  connected_at : Nat
  last_activity : Nat
deriving DecidableEq

/-- Connection manager state: the key set of the `active_connections` dict
(the socket objects carry no verified state) and the `session_metadata`
dict. -/
structure ConnectionManager where
  active_connections : List String
  session_metadata : List (String × SessionMeta)
deriving DecidableEq

/-- Python `(current - last).seconds` on `datetime` values: the seconds
*component* of the `timedelta` — the elapsed time modulo 86400 (one day) —
not the total elapsed seconds.  `Int.emod` matches Python's nonnegative
remainder. -/
def timedeltaSeconds (current last : Nat) : Int :=
  ((current : Int) - (last : Int)) % 86400

namespace ConnectionManager

/-- Method `disconnect`: if the session has an active connection, remove it
from both dicts (closing the socket has no further state effect). -/
def disconnect (cm : ConnectionManager) (session_id : String) : ConnectionManager :=
  if cm.active_connections.contains session_id then
    ⟨cm.active_connections.erase session_id, dictErase cm.session_metadata session_id⟩
  else cm

/-- One iteration of the `health_check` loop body: collect the sessions
whose `(current_time - last_activity).seconds` exceeds 300, then disconnect
each.  (`last_activity` is always present in this model, as `connect`
always sets it, so the Python truthiness guard is vacuous.) -/
def healthSweepOnce (cm : ConnectionManager) (current_time : Nat) : ConnectionManager :=
  let stale_sessions := (cm.session_metadata.filter
    (fun p => timedeltaSeconds current_time p.2.last_activity > 300)).map Prod.fst
  stale_sessions.foldl disconnect cm

end ConnectionManager

/-- The one-session manager exhibiting the staleness bug: session "s",
connected and last active at instant 0. -/
def staleManager : ConnectionManager :=
  ⟨["s"], [("s", ⟨"tenant", 0, 0⟩)]⟩

/-! ### Vector memory store (`vector_memory_store.py`) -/

/-- One stored memory: id, content, timestamp.  The metadata dict and the
mock embedding (built from Python's interpreter-dependent `hash`) are not
inspected by any verified operation and are omitted. -/
structure VectorMemoryEntry where
  id : String
  content : String
  timestamp : Nat
deriving DecidableEq

/-- Mock vector memory store: the per-session `memories` dict. -/
structure VectorMemoryStore where
  memories : List (String × List VectorMemoryEntry)
deriving DecidableEq

namespace VectorMemoryStore

/-- Method `add`: create the session list if absent, build the id from the
session and the *current list length* (`f"{session_id}_{len(...)}"`),
append, and keep only the most recent 1000 entries (`[-1000:]`).  Returns
the id together with the new store. -/
def add (store : VectorMemoryStore) (session_id content : String) (now : Nat) :
    String × VectorMemoryStore :=
  let lst := (dictLookup store.memories session_id).getD []
  let memory_id := session_id ++ "_" ++ Nat.repr lst.length
  let lst2 := lst ++ [⟨memory_id, content, now⟩]
  let lst3 := if lst2.length > 1000 then lst2.drop (lst2.length - 1000) else lst2
  (memory_id, ⟨dictInsert store.memories session_id lst3⟩)

/-- A sequence of `add` calls for one session (content and clock instant per
call): returns the ids in call order together with the final store. -/
def addAll (store : VectorMemoryStore) (session_id : String) :
    List (String × Nat) → List String × VectorMemoryStore
  | [] => ([], store)
  | (content, now) :: rest =>
      let r := store.add session_id content now
      let r2 := addAll r.2 session_id rest
      (r.1 :: r2.1, r2.2)

end VectorMemoryStore

/-- Number of memories currently stored for a session. -/
def sessionLen (store : VectorMemoryStore) (session_id : String) : Nat :=
  ((dictLookup store.memories session_id).getD []).length

/-! ### Runtime memory (`runtime_memory.py`) -/

/-- One conversation message: an arbitrary payload plus the optional
`"timestamp"` entry of the message dict. -/
structure RTMessage (α : Type) where
  payload : α
  timestamp : Option Nat
deriving DecidableEq

/-- Timestamp a message if not already present
(`if "timestamp" not in message`). -/
def stampMessage {α : Type} (now : Nat) (m : RTMessage α) : RTMessage α :=
  match m.timestamp with
  | none => ⟨m.payload, some now⟩
  | some _ => m

/-- Runtime memory: the per-session `conversations` dict (a
`defaultdict(list)`) and the per-session `session_data` scratch map (not
involved in any verified claim). -/
structure RuntimeMemory (α : Type) where
  conversations : List (String × List (RTMessage α))
  session_data : List (String × List (String × α))
deriving DecidableEq

namespace RuntimeMemory

/-- Method `add_to_conversation`: stamp the message, append it to the
session's list (created on first use), and keep only the most recent 100
messages (`[-100:]`). -/
def add_to_conversation {α : Type} (mem : RuntimeMemory α) (now : Nat)
    (session_id : String) (message : RTMessage α) : RuntimeMemory α :=
  let conv := (dictLookup mem.conversations session_id).getD []
  let conv2 := conv ++ [stampMessage now message]
  let conv3 := if conv2.length > 100 then conv2.drop (conv2.length - 100) else conv2
  { mem with conversations := dictInsert mem.conversations session_id conv3 }

/-- Method `get_conversation_history`: the session's list, or empty. -/
def get_conversation_history {α : Type} (mem : RuntimeMemory α)
    (session_id : String) : List (RTMessage α) :=
  (dictLookup mem.conversations session_id).getD []

/-- A sequence of `add_to_conversation` calls for one session, each with its
own clock instant. -/
def addMessages {α : Type} (mem : RuntimeMemory α) (session_id : String) :
    List (Nat × RTMessage α) → RuntimeMemory α
  | [] => mem
  | (now, m) :: rest =>
      addMessages (mem.add_to_conversation now session_id m) session_id rest

end RuntimeMemory

/-- A runtime memory with no sessions. -/
def emptyRuntimeMemory (α : Type) : RuntimeMemory α := ⟨[], []⟩

/-- The most recent `k` elements of a list, in order: what the Python slice
`l[-k:]` keeps (the whole list when it is shorter than `k`). -/
def lastN {γ : Type} (k : Nat) (l : List γ) : List γ :=
  l.drop (l.length - k)

/-! ### Context Ranker (`context_ranker.py`)

Float scores are modelled with rationals; Python string methods become
functions on the underlying character lists. -/

/-- ASCII word character: the `\w` class of the regex `\w+` restricted to
ASCII (letter, digit or underscore), which covers every input the spec
exercises. -/
def isWordChar (c : Char) : Bool := c.isAlphanum || c == '_'

/-- Python `s.lower()` as a character list. -/
def lowerChars (s : String) : List Char := s.data.map Char.toLower

/-- Scanner behind `re.findall(r'\w+', s)`: split a character list into its
maximal runs of word characters.  The first argument holds the token being
built, reversed. -/
def findTokensAux : List Char → List Char → List (List Char)
  | acc, [] => if acc.isEmpty then [] else [acc.reverse]
  | acc, c :: rest =>
      if isWordChar c then findTokensAux (c :: acc) rest
      else if acc.isEmpty then findTokensAux [] rest
      else acc.reverse :: findTokensAux [] rest

/-- Tokens of `re.findall(r'\w+', s.lower())`: the word tokens of a string, lowercased,
in order, duplicates preserved. -/
def wordTokens (s : String) : List (List Char) :=
  findTokensAux [] (lowerChars s)

/-- Python `set(re.findall(r'\w+', s.lower()))`: only membership and size of
the result are ever used, so any duplicate-free enumeration models it. -/
def tokenSet (s : String) : List (List Char) :=
  (wordTokens s).dedup

/-- Substring test `needle in haystack` on lowercased character lists. -/
def isSubstring (needle haystack : List Char) : Bool :=
  decide (needle <:+: haystack)

/-- One tool descriptor as consumed by `rank_tools`: the dict keys `id`,
`name` and `description` (each defaulting to `""` via `.get`). -/
structure Tool where
  id : String
  name : String
  description : String
deriving DecidableEq

namespace ContextRanker

/-- Loop body of `rank_tools` for a single tool: tokenize its name and
description, count overlaps with the query token set, weight name matches
double, divide by the query token count (0 for an empty query), cap at 1. -/
def toolScore (query_words : List (List Char)) (tool : Tool) : ℚ :=
  let desc_words := (findTokensAux [] (lowerChars tool.description)).dedup
  let name_words := (findTokensAux [] (lowerChars tool.name)).dedup
  let desc_overlap := query_words.countP (fun w => desc_words.contains w)
  let name_overlap := query_words.countP (fun w => name_words.contains w)
  let score : ℚ :=
    if query_words.isEmpty then 0
    else ((name_overlap : ℚ) * 2 + (desc_overlap : ℚ)) / (query_words.length : ℚ)
  min score 1

/-- Method `rank_tools(query, tools)`: build the `tool_id ↦ score` dict. -/
def rank_tools (query : String) (tools : List Tool) : List (String × ℚ) :=
  let query_words := tokenSet query
  tools.foldl (fun scores tool => dictInsert scores tool.id (toolScore query_words tool)) []

/-- Method `calculate_relevance(query, content)`: token-overlap ratio, plus a
flat 0.3 bonus when the lowercased query occurs verbatim in the lowercased
content, capped at 1; an empty token set returns 0 before the bonus check. -/
def calculate_relevance (query content : String) : ℚ :=
  let query_words := tokenSet query
  let content_words := tokenSet content
  if query_words.isEmpty then 0
  else
    let overlap := query_words.countP (fun w => content_words.contains w)
    let score : ℚ := (overlap : ℚ) / (query_words.length : ℚ)
    let score :=
      if isSubstring (lowerChars query) (lowerChars content) then score + 3 / 10 else score
    min score 1

/-- Overlap ratio as worded by the spec: `|query-tokens ∩ content-tokens| /
|query-tokens|`, and 0 for an empty query token set. -/
def specOverlapFraction (query content : String) : ℚ :=
  if tokenSet query = [] then 0
  else ((tokenSet query).countP (fun w => (tokenSet content).contains w) : ℚ) /
    ((tokenSet query).length : ℚ)

/-- Substring bonus as worded by the spec: a flat 0.3 exactly when the
lowercase query appears as a literal substring of the lowercase content. -/
def specSubstringBonus (query content : String) : ℚ :=
  if isSubstring (lowerChars query) (lowerChars content) then 3 / 10 else 0

/-- Relevance score as worded by the spec: `min(overlap-ratio + bonus, 1.0)`,
with the whole result 0 when the query has no tokens. -/
def specRelevance (query content : String) : ℚ :=
  if tokenSet query = [] then 0
  else min (specOverlapFraction query content + specSubstringBonus query content) 1

/-- Per-tool score as worded by the spec: `min((2 × name-overlap +
description-overlap) / |query-tokens|, 1.0)`, and 0 when the query has no
tokens. -/
def specToolScore (query : String) (tool : Tool) : ℚ :=
  let qw := tokenSet query
  let name_overlap := qw.countP (fun w => ((wordTokens tool.name).dedup).contains w)
  let desc_overlap := qw.countP (fun w => ((wordTokens tool.description).dedup).contains w)
  if qw = [] then 0
  else min ((2 * (name_overlap : ℚ) + (desc_overlap : ℚ)) / (qw.length : ℚ)) 1

end ContextRanker

/-- The tool descriptor used by the spec's ranker examples: named
"Web Search", described "Search the web for information". -/
def webSearchTool : Tool :=
  ⟨"web_search", "Web Search", "Search the web for information"⟩
/-! ### Theorems -/

theorem dictLookup_insert_self {β : Type} (d : List (String × β)) (key : String) (v : β) :
    dictLookup (dictInsert d key v) key = some v := by
  induction d with
  | nil => simp [dictInsert, dictLookup]
  | cons p rest ih =>
      obtain ⟨k, w⟩ := p
      by_cases h : k = key
      · simp [dictInsert, dictLookup, h]
      · simp [dictInsert, dictLookup, h, ih]

theorem dictLookup_insert_ne {β : Type} (d : List (String × β)) (key k : String) (v : β)
    (h : k ≠ key) : dictLookup (dictInsert d key v) k = dictLookup d k := by
  induction d with
  | nil => simp [dictInsert, dictLookup, Ne.symm h]
  | cons p rest ih =>
      obtain ⟨k2, w⟩ := p
      by_cases h2 : k2 = key
      · subst h2
        simp only [dictInsert, if_pos rfl, dictLookup]
        rw [if_neg (Ne.symm h), if_neg (Ne.symm h)]
      · simp only [dictInsert, h2, if_false, dictLookup]
        by_cases h3 : k2 = k
        · simp [h3]
        · simp [h3, ih]

theorem dictLookup_erase_ne {β : Type} (d : List (String × β)) (key k : String)
    (h : k ≠ key) : dictLookup (dictErase d key) k = dictLookup d k := by
  induction d with
  | nil => simp [dictErase, dictLookup]
  | cons p rest ih =>
      obtain ⟨k2, w⟩ := p
      by_cases h2 : k2 = key
      · subst h2
        simp only [dictErase, List.eraseP_cons, beq_self_eq_true, cond_true, dictLookup]
        rw [if_neg (Ne.symm h)]
      · have hb : ((k2, w).1 == key) = false := by simp [h2]
        simp only [dictErase, List.eraseP_cons, hb, cond_false, dictLookup]
        by_cases h3 : k2 = k
        · simp [h3]
        · simp only [h3, if_false]
          simpa [dictErase] using ih

theorem dictLookup_erase_self {β : Type} (d : List (String × β)) (key : String)
    (hwf : dictWF d) : dictLookup (dictErase d key) key = none := by
  induction d with
  | nil => simp [dictErase, dictLookup]
  | cons p rest ih =>
      obtain ⟨k2, w⟩ := p
      simp only [dictWF, List.map_cons, List.nodup_cons] at hwf
      by_cases h2 : k2 = key
      · subst h2
        simp only [dictErase, List.eraseP_cons, beq_self_eq_true, cond_true]
        clear ih
        induction rest with
        | nil => simp [dictLookup]
        | cons q rest2 ih2 =>
            obtain ⟨k3, w3⟩ := q
            simp only [List.map_cons, List.mem_cons] at hwf
            have hne : k3 ≠ k2 := fun h => hwf.1 (Or.inl h.symm)
            simp only [dictLookup, hne, if_false]
            exact ih2 ⟨fun h => hwf.1 (Or.inr h), (List.nodup_cons.mp hwf.2).2⟩
      · have : ((fun p => p.1 == key) (k2, w)) = false := by simp [h2]
        simp only [dictErase, List.eraseP_cons, this, cond_false]
        simp only [dictLookup, h2, if_false]
        exact ih hwf.2

theorem mem_keys_dictInsert {β : Type} (d : List (String × β)) (key k : String) (v : β) :
    k ∈ (dictInsert d key v).map Prod.fst ↔ k = key ∨ k ∈ d.map Prod.fst := by
  induction d with
  | nil => simp [dictInsert]
  | cons p rest ih =>
      obtain ⟨k2, w⟩ := p
      by_cases h2 : k2 = key
      · subst h2
        have hu : dictInsert ((k2, w) :: rest) k2 v = (k2, v) :: rest := by
          simp [dictInsert]
        rw [hu]
        simp only [List.map_cons, List.mem_cons]
        tauto
      · have hu : dictInsert ((k2, w) :: rest) key v = (k2, w) :: dictInsert rest key v := by
          simp [dictInsert, h2]
        rw [hu]
        simp only [List.map_cons, List.mem_cons, ih]
        tauto

theorem dictWF_insert {β : Type} (d : List (String × β)) (key : String) (v : β)
    (hwf : dictWF d) : dictWF (dictInsert d key v) := by
  induction d with
  | nil => simp [dictInsert, dictWF]
  | cons p rest ih =>
      obtain ⟨k2, w⟩ := p
      simp only [dictWF, List.map_cons, List.nodup_cons] at hwf
      by_cases h2 : k2 = key
      · subst h2
        simpa [dictInsert, dictWF] using hwf
      · have hrest := ih hwf.2
        simp only [dictInsert, h2, if_false, dictWF, List.map_cons, List.nodup_cons]
        refine ⟨?_, hrest⟩
        rw [mem_keys_dictInsert]
        push_neg
        exact ⟨h2, hwf.1⟩

/-- C10: for every cache store state and every evaluation instant, `get_stats`
reports `total_keys = active_keys + expired_keys`, where the active count is
exactly the number of entries whose expiry has not passed (`now ≤ expires_at`)
and the expired count is exactly the number of entries whose expiry lies
strictly before `now`: the reported counts partition the stored keys. -/
theorem C10_get_stats_partition (α : Type) (s : CacheMemoryStore α) (now : Nat) :
    (s.get_stats now).1 = (s.get_stats now).2.1 + (s.get_stats now).2.2 ∧
    (s.get_stats now).2.1 = s.cache.countP (fun p => now ≤ p.2.expires_at) ∧
    (s.get_stats now).2.2 = s.cache.countP (fun p => p.2.expires_at < now) := by
  have key : ∀ l : List (String × CacheEntry α),
      l.countP (fun p => now ≤ p.2.expires_at) ≤ l.length ∧
      l.length - l.countP (fun p => now ≤ p.2.expires_at) =
        l.countP (fun p => p.2.expires_at < now) := by
    intro l
    induction l with
    | nil => simp
    | cons x xs ih =>
        obtain ⟨ih1, ih2⟩ := ih
        by_cases hx : now ≤ x.2.expires_at
        · simp [List.countP_cons, hx, Nat.not_lt.mpr hx]
          omega
        · simp [List.countP_cons, hx, Nat.lt_of_not_le hx]
          omega
  refine ⟨?_, rfl, ?_⟩
  · simp only [CacheMemoryStore.get_stats]
    have h := key s.cache
    omega
  · simp only [CacheMemoryStore.get_stats]
    exact (key s.cache).2

/-- C6: after `set(key, value, ttl)` at instant `now1`, a `get(key)` strictly
before `now1 + ttl` returns the stored value and leaves the store unchanged;
a `get(key)` strictly after the expiry instant `now1 + ttl` returns nothing,
deletes that key from the store, and leaves every other key unchanged; and a
`get` on an absent key returns nothing and leaves the store unchanged. -/
theorem C6_cache_ttl_roundtrip (α : Type) (s : CacheMemoryStore α)
    (now1 now2 ttl : Nat) (key : String) (v : α) (hwf : dictWF s.cache) :
    (now2 < now1 + ttl →
      (s.set now1 key v ttl).get now2 key = (some v, s.set now1 key v ttl)) ∧
    (now1 + ttl < now2 →
      ((s.set now1 key v ttl).get now2 key).1 = none ∧
      dictLookup ((s.set now1 key v ttl).get now2 key).2.cache key = none ∧
      ∀ k, k ≠ key →
        dictLookup ((s.set now1 key v ttl).get now2 key).2.cache k =
          dictLookup (s.set now1 key v ttl).cache k) ∧
    (dictLookup s.cache key = none → s.get now2 key = (none, s)) := by
  have hself : dictLookup (s.set now1 key v ttl).cache key =
      some ⟨v, now1 + ttl⟩ := dictLookup_insert_self s.cache key _
  refine ⟨?_, ?_, ?_⟩
  · intro hlt
    simp only [CacheMemoryStore.get, hself]
    rw [if_neg (by omega : ¬ now2 > now1 + ttl)]
  · intro hgt
    have hwf2 : dictWF (s.set now1 key v ttl).cache :=
      dictWF_insert s.cache key _ hwf
    simp only [CacheMemoryStore.get, hself]
    rw [if_pos (by omega : now2 > now1 + ttl)]
    refine ⟨rfl, ?_, ?_⟩
    · exact dictLookup_erase_self _ key hwf2
    · intro k hk
      exact dictLookup_erase_ne _ key k hk
  · intro hnone
    simp only [CacheMemoryStore.get, hnone]

/-- C6 witness: a concrete round trip with TTL 1 second set at instant 0 on
the one-slot store: an immediate `get` returns the value, a `get` at instant
2 returns nothing and deletes the entry, and a `get` on an absent key of the
empty store returns nothing. -/
theorem C6_cache_ttl_roundtrip_witness :
    ((CacheMemoryStore.set (⟨[]⟩ : CacheMemoryStore Nat) 0 "k" 7 1).get 0 "k" =
      (some 7, CacheMemoryStore.set (⟨[]⟩ : CacheMemoryStore Nat) 0 "k" 7 1)) ∧
    (((CacheMemoryStore.set (⟨[]⟩ : CacheMemoryStore Nat) 0 "k" 7 1).get 2 "k").1 = none) ∧
    (CacheMemoryStore.get (⟨[]⟩ : CacheMemoryStore Nat) 0 "k" =
      (none, (⟨[]⟩ : CacheMemoryStore Nat))) := by
  have h := C6_cache_ttl_roundtrip Nat ⟨[]⟩ 0 0 1 "k" 7 (by simp [dictWF])
  have h2 := C6_cache_ttl_roundtrip Nat ⟨[]⟩ 0 2 1 "k" 7 (by simp [dictWF])
  exact ⟨h.1 (by decide), (h2.2.1 (by decide)).1, h.2.2 (by simp [dictLookup])⟩

/-! ### Ordering and stability facts for the task-queue sort -/

theorem taskLe_total (a b : Task) : taskLe a b = true ∨ taskLe b a = true := by
  unfold taskLe
  cases a.priority <;> cases b.priority <;> decide

theorem taskLe_trans (a b c : Task) (h1 : taskLe a b = true) (h2 : taskLe b c = true) :
    taskLe a c = true := by
  unfold taskLe at h1 h2 ⊢
  revert h1 h2
  cases a.priority <;> cases b.priority <;> cases c.priority <;> decide

theorem taskLe_of_eq_priority (a b : Task) (h : a.priority = b.priority) :
    taskLe a b = true := by
  unfold taskLe
  rw [h]
  cases b.priority <;> decide

theorem mem_insertTask (x a : Task) (l : List Task) :
    x ∈ insertTask a l ↔ x = a ∨ x ∈ l := by
  induction l with
  | nil => simp [insertTask]
  | cons b bs ih =>
      by_cases h : taskLe b a = true
      · simp only [insertTask, h, if_true, List.mem_cons, ih]
        tauto
      · simp only [insertTask, h, Bool.false_eq_true, if_false, List.mem_cons]

theorem pairwise_insertTask (a : Task) (l : List Task)
    (hl : List.Pairwise (fun x y => taskLe x y = true) l) :
    List.Pairwise (fun x y => taskLe x y = true) (insertTask a l) := by
  induction l with
  | nil => simp [insertTask]
  | cons b bs ih =>
      rw [List.pairwise_cons] at hl
      obtain ⟨hb, hbs⟩ := hl
      by_cases h : taskLe b a = true
      · have hins : insertTask a (b :: bs) = b :: insertTask a bs := by
          simp [insertTask, h]
        rw [hins, List.pairwise_cons]
        refine ⟨?_, ih hbs⟩
        intro x hx
        rcases (mem_insertTask x a bs).mp hx with rfl | hx2
        · exact h
        · exact hb x hx2
      · have hab : taskLe a b = true := by
          rcases taskLe_total a b with ht | ht
          · exact ht
          · exact absurd ht h
        have hins : insertTask a (b :: bs) = a :: b :: bs := by
          simp [insertTask, h]
        rw [hins, List.pairwise_cons]
        refine ⟨?_, List.pairwise_cons.mpr ⟨hb, hbs⟩⟩
        intro x hx
        rcases List.mem_cons.mp hx with rfl | hx2
        · exact hab
        · exact taskLe_trans a b x hab (hb x hx2)

theorem pairwise_foldl_insertTask (l acc : List Task)
    (hacc : List.Pairwise (fun x y => taskLe x y = true) acc) :
    List.Pairwise (fun x y => taskLe x y = true)
      (l.foldl (fun acc2 a => insertTask a acc2) acc) := by
  induction l generalizing acc with
  | nil => simpa
  | cons x xs ih => exact ih _ (pairwise_insertTask x acc hacc)

theorem stableSortTasks_sorted (l : List Task) :
    List.Pairwise (fun x y => taskLe x y = true) (stableSortTasks l) :=
  pairwise_foldl_insertTask l [] (by simp)

theorem filter_insertTask (pr : TaskPriority) (a : Task) (l : List Task)
    (hl : List.Pairwise (fun x y => taskLe x y = true) l) :
    (insertTask a l).filter (fun t => t.priority == pr) =
      (if a.priority == pr then l.filter (fun t => t.priority == pr) ++ [a]
       else l.filter (fun t => t.priority == pr)) := by
  induction l with
  | nil => by_cases hpa : a.priority == pr <;> simp [insertTask, hpa]
  | cons b bs ih =>
      rw [List.pairwise_cons] at hl
      obtain ⟨hb, hbs⟩ := hl
      by_cases h : taskLe b a = true
      · have hins : insertTask a (b :: bs) = b :: insertTask a bs := by
          simp [insertTask, h]
        rw [hins]
        by_cases hpb : b.priority == pr
        · by_cases hpa : a.priority == pr <;>
            simp [List.filter_cons, hpb, hpa, ih hbs]
        · by_cases hpa : a.priority == pr <;>
            simp [List.filter_cons, hpb, hpa, ih hbs]
      · have hins : insertTask a (b :: bs) = a :: b :: bs := by
          simp [insertTask, h]
        rw [hins]
        by_cases hpa : a.priority == pr
        · have hnil : (b :: bs).filter (fun t => t.priority == pr) = [] := by
            rw [List.filter_eq_nil_iff]
            intro x hx hpx
            have hxa : taskLe x a = true := by
              apply taskLe_of_eq_priority
              have h1 : x.priority = pr := by simpa using hpx
              have h2 : a.priority = pr := by simpa using hpa
              rw [h1, h2]
            rcases List.mem_cons.mp hx with rfl | hx2
            · exact h hxa
            · exact h (taskLe_trans b x a (hb x hx2) hxa)
          simp [List.filter_cons, hpa, hnil]
        · simp [List.filter_cons, hpa]

theorem filter_foldl_insertTask (pr : TaskPriority) (l acc : List Task)
    (hacc : List.Pairwise (fun x y => taskLe x y = true) acc) :
    (l.foldl (fun acc2 a => insertTask a acc2) acc).filter (fun t => t.priority == pr) =
      acc.filter (fun t => t.priority == pr) ++ l.filter (fun t => t.priority == pr) := by
  induction l generalizing acc with
  | nil => simp
  | cons x xs ih =>
      rw [List.foldl_cons, ih _ (pairwise_insertTask x acc hacc),
        filter_insertTask pr x acc hacc]
      by_cases hpx : x.priority == pr
      · simp [List.filter_cons, hpx]
      · simp [List.filter_cons, hpx]

theorem stableSortTasks_filter (pr : TaskPriority) (l : List Task) :
    (stableSortTasks l).filter (fun t => t.priority == pr) =
      l.filter (fun t => t.priority == pr) := by
  have h := filter_foldl_insertTask pr l [] (by simp)
  simpa [stableSortTasks] using h

theorem addTasks_filter (pr : TaskPriority) (s : AgentState) (ts : List Task) :
    ((s.addTasks ts).task_queue.filter (fun t => t.priority == pr)) =
      (s.task_queue ++ ts).filter (fun t => t.priority == pr) := by
  induction ts generalizing s with
  | nil => simp [AgentState.addTasks]
  | cons t rest ih =>
      have hstep : s.addTasks (t :: rest) = (s.add_task t).addTasks rest := rfl
      rw [hstep, ih]
      have hq : (s.add_task t).task_queue = stableSortTasks (s.task_queue ++ [t]) := rfl
      rw [hq, List.filter_append, stableSortTasks_filter, List.filter_append,
        List.filter_append, List.filter_cons]
      by_cases hpt : t.priority == pr <;> simp [hpt]

/-- C1 counterexample: starting from a fresh state, `add_task` of a medium
task followed by `add_task` of a low task leaves the queue ordered
`[low, medium]` — the sort uses the priority's string value, and
`"low" < "medium"` lexicographically — so the queue is *not* ascending in
the enumeration's declared order, which places medium (rank 2) before low
(rank 3). -/
theorem C1_counterexample :
    ((((initialAgentState "cx").add_task (mkTask "t1" "medium task" .medium)).add_task
        (mkTask "t2" "low task" .low)).task_queue.map (fun t => t.priority) =
      [TaskPriority.low, TaskPriority.medium]) ∧
    ¬ List.Pairwise (fun a b => declaredRank a.priority ≤ declaredRank b.priority)
      (((initialAgentState "cx").add_task (mkTask "t1" "medium task" .medium)).add_task
        (mkTask "t2" "low task" .low)).task_queue := by
  constructor
  · decide
  · decide

/-- C1 (amended): after any nonempty sequence of `add_task` calls the queue
is sorted ascending by the *lexicographic order of the priority's string
value* (critical, high, low, medium — not the enumeration's declared
order), the sort is stable (each priority class keeps its insertion order),
and after inserting tasks of priorities [low, critical, medium] into a
fresh state, `get_next_task` returns the critical task first. -/
theorem C1_add_task_sorted_stable :
    (∀ (s : AgentState) (ts : List Task), ts ≠ [] →
      List.Pairwise (fun a b => taskLe a b = true) (s.addTasks ts).task_queue) ∧
    (∀ (s : AgentState) (ts : List Task) (pr : TaskPriority),
      ((s.addTasks ts).task_queue.filter (fun t => t.priority == pr)) =
        (s.task_queue ++ ts).filter (fun t => t.priority == pr)) ∧
    ((((initialAgentState "s").addTasks
        [mkTask "a" "low task" .low, mkTask "b" "critical task" .critical,
         mkTask "c" "medium task" .medium]).get_next_task).map Task.id = some "b") := by
  refine ⟨?_, ?_, by decide⟩
  · intro s ts hne
    rcases List.eq_nil_or_concat ts with rfl | ⟨L, b, rfl⟩
    · exact absurd rfl hne
    · have hsplit : s.addTasks (L.concat b) = (s.addTasks L).add_task b := by
        simp [AgentState.addTasks, List.concat_eq_append, List.foldl_append]
      rw [hsplit]
      exact stableSortTasks_sorted _
  · intro s ts pr
    exact addTasks_filter pr s ts

/-- C1 witness: the sortedness clause applied to a fresh state and the
two-task insertion sequence from the counterexample. -/
theorem C1_add_task_sorted_stable_witness :
    List.Pairwise (fun a b => taskLe a b = true)
      ((initialAgentState "w1").addTasks
        [mkTask "t1" "medium task" .medium, mkTask "t2" "low task" .low]).task_queue :=
  C1_add_task_sorted_stable.1 (initialAgentState "w1")
    [mkTask "t1" "medium task" .medium, mkTask "t2" "low task" .low] (by decide)

/-- C5: `get_next_task` returns nothing exactly when no queued task is both
pending and dependency-satisfied; when it returns a task, that task is
pending with all dependency ids present among `completed_tasks` as
completed tasks, every task before it in the queue fails the test, and in
particular every dependency id of the returned task — such as "t1" — is
backed by a completed task of that id. -/
theorem C5_get_next_task_spec :
    (∀ s : AgentState,
      (s.get_next_task = none ↔
        ∀ t ∈ s.task_queue, ¬(t.status = TaskStatus.pending ∧
          ∀ dep ∈ t.dependencies, ∃ c ∈ s.completed_tasks,
            c.id = dep ∧ c.status = TaskStatus.completed))) ∧
    (∀ (s : AgentState) (t : Task), s.get_next_task = some t →
      t.status = TaskStatus.pending ∧
      (∀ dep ∈ t.dependencies, ∃ c ∈ s.completed_tasks,
        c.id = dep ∧ c.status = TaskStatus.completed) ∧
      ∃ pre post, s.task_queue = pre ++ t :: post ∧
        ∀ u ∈ pre, ¬(u.status = TaskStatus.pending ∧
          ∀ dep ∈ u.dependencies, ∃ c ∈ s.completed_tasks,
            c.id = dep ∧ c.status = TaskStatus.completed)) ∧
    (∀ (s : AgentState) (t : Task) (dep : String), s.get_next_task = some t →
      dep ∈ t.dependencies →
        ∃ c ∈ s.completed_tasks, c.id = dep ∧ c.status = TaskStatus.completed) := by
  have hpred : ∀ (s : AgentState) (t : Task),
      ((t.status == TaskStatus.pending &&
        t.dependencies.all (fun dep_id => s.completed_tasks.any (fun c =>
          c.id == dep_id && c.status == TaskStatus.completed))) = true) ↔
      (t.status = TaskStatus.pending ∧
        ∀ dep ∈ t.dependencies, ∃ c ∈ s.completed_tasks,
          c.id = dep ∧ c.status = TaskStatus.completed) := by
    intro s t
    simp [List.all_eq_true, List.any_eq_true]
  have hsome : ∀ (s : AgentState) (t : Task), s.get_next_task = some t →
      t.status = TaskStatus.pending ∧
      (∀ dep ∈ t.dependencies, ∃ c ∈ s.completed_tasks,
        c.id = dep ∧ c.status = TaskStatus.completed) ∧
      ∃ pre post, s.task_queue = pre ++ t :: post ∧
        ∀ u ∈ pre, ¬(u.status = TaskStatus.pending ∧
          ∀ dep ∈ u.dependencies, ∃ c ∈ s.completed_tasks,
            c.id = dep ∧ c.status = TaskStatus.completed) := by
    intro s t hfind
    rw [AgentState.get_next_task, List.find?_eq_some] at hfind
    obtain ⟨hp, pre, post, hsplit2, hpre⟩ := hfind
    have ht := (hpred s t).mp hp
    refine ⟨ht.1, ht.2, pre, post, hsplit2, ?_⟩
    intro u hu hprop
    have hub := (hpred s u).mpr hprop
    have := hpre u hu
    rw [hub] at this
    exact absurd this (by decide)
  refine ⟨?_, hsome, ?_⟩
  · intro s
    rw [AgentState.get_next_task, List.find?_eq_none]
    constructor
    · intro hall t ht hprop
      exact hall t ht ((hpred s t).mpr hprop)
    · intro hall t ht hb
      exact hall t ht ((hpred s t).mp hb)
  · intro s t dep hfind hdep
    exact (hsome s t hfind).2.1 dep hdep

/-- C5 witness: on `gatingState`, `get_next_task` returns `depTask`, and the
gating clause instantiated there produces the completed "t1" task backing
the dependency. -/
theorem C5_get_next_task_spec_witness :
    ∃ c ∈ gatingState.completed_tasks, c.id = "t1" ∧ c.status = TaskStatus.completed :=
  C5_get_next_task_spec.2.2 gatingState depTask "t1" (by decide) (by decide)

/-- C4: the error handler appends "error_handler" to the trace and one entry
to the error log; with fewer than 3 logged errors (after logging) it routes
"retry" leaving the status alone, with 3 or more it routes "fail" and sets
the status to failed.  A run of three consecutive failures ends failed with
"error_handler" three times in the trace and next_action "fail", and a
fourth failure opportunity changes nothing (no further retry). -/
theorem C4_error_handler_retry_then_fail :
    (∀ (now : Nat) (state : WorkflowState),
      (error_handler_node now state).agent_chain_trace =
        state.agent_chain_trace ++ ["error_handler"] ∧
      (error_handler_node now state).agent_state.error_log.length =
        state.agent_state.error_log.length + 1 ∧
      ((error_handler_node now state).agent_state.error_log.length < 3 →
        (error_handler_node now state).next_action = some "retry" ∧
        (error_handler_node now state).agent_state.status = state.agent_state.status) ∧
      (3 ≤ (error_handler_node now state).agent_state.error_log.length →
        (error_handler_node now state).next_action = some "fail" ∧
        (error_handler_node now state).agent_state.status = AgentStatus.failed)) ∧
    ((failingRun 0 3 (initialWorkflowState "s4")).agent_state.status =
        AgentStatus.failed ∧
      (failingRun 0 3 (initialWorkflowState "s4")).agent_chain_trace.count
        "error_handler" = 3 ∧
      (failingRun 0 3 (initialWorkflowState "s4")).next_action = some "fail" ∧
      failingRun 0 4 (initialWorkflowState "s4") =
        failingRun 0 3 (initialWorkflowState "s4")) := by
  refine ⟨?_, by decide, by decide, by decide, by decide⟩
  intro now state
  by_cases h : state.agent_state.error_log.length + 1 < 3
  · have hred : error_handler_node now state =
        { state with
          agent_chain_trace := state.agent_chain_trace ++ ["error_handler"],
          agent_state := state.agent_state.log_error now
            (state.error.getD "Unknown error")
            (state.agent_chain_trace ++ ["error_handler"]),
          next_action := some "retry" } := by
      simp [error_handler_node, AgentState.log_error, h]
    rw [hred]
    refine ⟨rfl, by simp [AgentState.log_error], fun _ => ⟨rfl, by simp [AgentState.log_error]⟩, ?_⟩
    intro hge
    simp only [AgentState.log_error, List.length_append, List.length_cons,
      List.length_nil] at hge
    omega
  · have hred : error_handler_node now state =
        { state with
          agent_chain_trace := state.agent_chain_trace ++ ["error_handler"],
          agent_state := (state.agent_state.log_error now
            (state.error.getD "Unknown error")
            (state.agent_chain_trace ++ ["error_handler"])).update_status
              AgentStatus.failed now,
          next_action := some "fail" } := by
      simp [error_handler_node, AgentState.log_error, h]
    rw [hred]
    refine ⟨rfl, by simp [AgentState.log_error, AgentState.update_status], ?_,
      fun _ => ⟨rfl, by simp [AgentState.update_status]⟩⟩
    intro hlt
    simp only [AgentState.log_error, AgentState.update_status, List.length_append,
      List.length_cons, List.length_nil] at hlt
    omega

/-- C4 witness: the general clause applied to the fresh session state at
instant 0: after one failure the handler has logged one error and routes
"retry". -/
theorem C4_error_handler_retry_then_fail_witness :
    (error_handler_node 0 (initialWorkflowState "w4")).next_action = some "retry" ∧
    (error_handler_node 0 (initialWorkflowState "w4")).agent_state.status =
      (initialWorkflowState "w4").agent_state.status :=
  (C4_error_handler_retry_then_fail.1 0 (initialWorkflowState "w4")).2.2.1 (by decide)

/-- C2 (code behaviour at the failing input): at instant 86405 the session
of `staleManager` has been idle 86405 seconds — far beyond the 300-second
window — yet the sweep retains it unchanged, because
`(current - last).seconds` is the timedelta's seconds component,
`86405 mod 86400 = 5`.  At instant 400 (within the first day) the same
session is correctly removed from both maps. -/
theorem C2_health_check_day_wraparound :
    ((86405 : Nat) - 0 > 300) ∧
    ConnectionManager.healthSweepOnce staleManager 86405 = staleManager ∧
    dictLookup (ConnectionManager.healthSweepOnce staleManager 400).session_metadata
      "s" = none ∧
    (ConnectionManager.healthSweepOnce staleManager 400).active_connections = [] := by
  refine ⟨by decide, by decide, by decide, by decide⟩

theorem sessionLen_add (store : VectorMemoryStore) (sid content : String) (now : Nat) :
    sessionLen (store.add sid content now).2 sid =
      min (sessionLen store sid + 1) 1000 := by
  simp only [VectorMemoryStore.add, sessionLen, dictLookup_insert_self, Option.getD_some]
  by_cases h : ((dictLookup store.memories sid).getD []).length + 1 > 1000
  · rw [if_pos (by
      simp only [List.length_append, List.length_cons, List.length_nil]
      omega)]
    simp only [List.length_drop, List.length_append, List.length_cons, List.length_nil]
    omega
  · rw [if_neg (by
      simp only [List.length_append, List.length_cons, List.length_nil]
      omega)]
    simp only [List.length_append, List.length_cons, List.length_nil]
    omega

theorem addAll_ids (sid : String) (inputs : List (String × Nat))
    (store : VectorMemoryStore) (hn : sessionLen store sid ≤ 1000) :
    (VectorMemoryStore.addAll store sid inputs).1 =
      (List.range inputs.length).map
        (fun i => sid ++ "_" ++ Nat.repr (min (sessionLen store sid + i) 1000)) := by
  induction inputs generalizing store with
  | nil => simp [VectorMemoryStore.addAll]
  | cons p rest ih =>
      obtain ⟨content, now⟩ := p
      have hid : (store.add sid content now).1 =
          sid ++ "_" ++ Nat.repr (sessionLen store sid) := rfl
      have hlen := sessionLen_add store sid content now
      have hn2 : sessionLen (store.add sid content now).2 sid ≤ 1000 := by
        rw [hlen]; omega
      have htail := ih (store.add sid content now).2 hn2
      simp only [VectorMemoryStore.addAll, htail, hid, List.length_cons,
        List.range_succ_eq_map, List.map_cons, List.map_map]
      congr 1
      · congr 2
        omega
      · apply List.map_congr_left
        intro i _
        simp only [Function.comp, hlen]
        congr 2
        omega

/-- C3 counterexample: on a fresh store, 1002 adds to session "s" return the
*same* id "s_1000" for the 1001st and the 1002nd add — the id is built from
the list length, which the 1000-entry eviction pins at 1000 — so ids are
neither strictly increasing nor pairwise distinct once eviction starts. -/
theorem C3_counterexample :
    ((VectorMemoryStore.addAll ⟨[]⟩ "s" (List.replicate 1002 ("m", 0))).1)[1000]? =
      some "s_1000" ∧
    ((VectorMemoryStore.addAll ⟨[]⟩ "s" (List.replicate 1002 ("m", 0))).1)[1001]? =
      some "s_1000" := by
  have h := addAll_ids "s" (List.replicate 1002 ("m", 0)) ⟨[]⟩ (by decide)
  rw [h]
  simp only [List.getElem?_map, List.length_replicate]
  rw [List.getElem?_range (by omega), List.getElem?_range (by omega)]
  simp only [Option.map_some']
  constructor <;> decide

/-- C3 (amended): on a fresh store, the id returned by the add with `i`
prior adds on the session is `"{session}_{min(i, 1000)}"`: the counter in
the id increases strictly through the first 1001 adds (values 0..1000) and
then stays at 1000, so every add from the 1001st on — i.e. every add after
the cap has caused evictions — returns the same id `"{session}_1000"`. -/
theorem C3_session_ids :
    (∀ (sid : String) (inputs : List (String × Nat)),
      (VectorMemoryStore.addAll ⟨[]⟩ sid inputs).1 =
        (List.range inputs.length).map
          (fun i => sid ++ "_" ++ Nat.repr (min i 1000))) ∧
    (∀ (sid : String) (inputs : List (String × Nat)) (i : Nat),
      1000 ≤ i → i < inputs.length →
        ((VectorMemoryStore.addAll ⟨[]⟩ sid inputs).1)[i]? =
          some (sid ++ "_" ++ Nat.repr 1000)) := by
  have hfresh : ∀ sid : String, sessionLen ⟨[]⟩ sid = 0 := fun _ => rfl
  have hmain : ∀ (sid : String) (inputs : List (String × Nat)),
      (VectorMemoryStore.addAll ⟨[]⟩ sid inputs).1 =
        (List.range inputs.length).map
          (fun i => sid ++ "_" ++ Nat.repr (min i 1000)) := by
    intro sid inputs
    have h := addAll_ids sid inputs ⟨[]⟩ (by rw [hfresh]; omega)
    rw [h, hfresh]
    apply List.map_congr_left
    intro i _
    congr 2
    omega
  refine ⟨hmain, ?_⟩
  intro sid inputs i h1000 hlt
  rw [hmain]
  simp only [List.getElem?_map]
  rw [List.getElem?_range hlt]
  simp only [Option.map_some']
  congr 3
  omega

/-- C3 witness: the post-cap clause applied at the 1001st id of a concrete
1002-add sequence. -/
theorem C3_session_ids_witness :
    ((VectorMemoryStore.addAll ⟨[]⟩ "w3" (List.replicate 1002 ("m", 0))).1)[1001]? =
      some ("w3" ++ "_" ++ Nat.repr 1000) :=
  C3_session_ids.2 "w3" (List.replicate 1002 ("m", 0)) 1001 (by omega)
    (by rw [List.length_replicate]; omega)

theorem trim_eq_lastN {γ : Type} (k : Nat) (l : List γ) :
    (if l.length > k then l.drop (l.length - k) else l) = lastN k l := by
  by_cases h : l.length > k
  · rw [if_pos h, lastN]
  · rw [if_neg h, lastN, Nat.sub_eq_zero_of_le (by omega), List.drop_zero]

theorem lastN_eq_reverse_take {γ : Type} (k : Nat) (l : List γ) :
    lastN k l = (l.reverse.take k).reverse := by
  have hdrop := List.reverse_drop (l := l) (n := l.length - k)
  rw [lastN, ← List.reverse_reverse (l.drop (l.length - k)), hdrop]
  by_cases h : k ≤ l.length
  · have : l.length - (l.length - k) = k := by omega
    rw [this]
  · have h1 : l.length - (l.length - k) = l.length := by omega
    rw [h1, List.take_of_length_le (by simp), List.take_of_length_le (by simp; omega)]

theorem lastN_append_lastN {γ : Type} (k : Nat) (X Y : List γ) :
    lastN k (lastN k X ++ Y) = lastN k (X ++ Y) := by
  rw [lastN_eq_reverse_take, lastN_eq_reverse_take (l := X ++ Y)]
  rw [List.reverse_append, List.reverse_append, lastN_eq_reverse_take,
    List.reverse_reverse]
  congr 1
  rw [List.take_append_eq_append_take, List.take_append_eq_append_take,
    List.take_take]
  congr 1
  congr 1
  omega

theorem hist_addMessages {α : Type} (sid : String) (ms : List (Nat × RTMessage α))
    (mem : RuntimeMemory α) (hne : ms ≠ []) :
    (RuntimeMemory.addMessages mem sid ms).get_conversation_history sid =
      lastN 100 (mem.get_conversation_history sid ++
        ms.map (fun p => stampMessage p.1 p.2)) := by
  induction ms generalizing mem with
  | nil => exact absurd rfl hne
  | cons x rest ih =>
      obtain ⟨now, m⟩ := x
      have hone : (mem.add_to_conversation now sid m).get_conversation_history sid =
          lastN 100 (mem.get_conversation_history sid ++ [stampMessage now m]) := by
        simp only [RuntimeMemory.add_to_conversation,
          RuntimeMemory.get_conversation_history, dictLookup_insert_self,
          Option.getD_some]
        exact trim_eq_lastN 100 _
      rcases eq_or_ne rest [] with rfl | hrest
      · simpa [RuntimeMemory.addMessages] using hone
      · have hstep : RuntimeMemory.addMessages mem sid ((now, m) :: rest) =
            RuntimeMemory.addMessages (mem.add_to_conversation now sid m) sid rest :=
          rfl
        rw [hstep, ih _ hrest, hone, lastN_append_lastN]
        simp [List.append_assoc]

/-- C9: for every session and sequence of `add_to_conversation` calls from a
fresh memory, the session's conversation log afterwards is exactly the most
recent 100 of the (timestamped) appended messages, in original order — all
of them when at most 100 were appended; in particular appending 105
messages leaves exactly the last 100 in order. -/
theorem C9_conversation_cap :
    (∀ (α : Type) (sid : String) (ms : List (Nat × RTMessage α)),
      (RuntimeMemory.addMessages (emptyRuntimeMemory α) sid ms).get_conversation_history
          sid =
        lastN 100 (ms.map (fun p => stampMessage p.1 p.2))) ∧
    ((RuntimeMemory.addMessages (emptyRuntimeMemory Nat) "s9"
        ((List.range 105).map (fun i => (0, ⟨i, some i⟩)))).get_conversation_history
          "s9" =
      ((List.range 105).drop 5).map (fun i => ⟨i, some i⟩)) := by
  have hmain : ∀ (α : Type) (sid : String) (ms : List (Nat × RTMessage α)),
      (RuntimeMemory.addMessages (emptyRuntimeMemory α) sid ms).get_conversation_history
          sid =
        lastN 100 (ms.map (fun p => stampMessage p.1 p.2)) := by
    intro α sid ms
    rcases eq_or_ne ms [] with rfl | hne
    · simp [RuntimeMemory.addMessages, RuntimeMemory.get_conversation_history,
        emptyRuntimeMemory, dictLookup, lastN]
    · rw [hist_addMessages sid ms _ hne]
      simp [RuntimeMemory.get_conversation_history, emptyRuntimeMemory, dictLookup]
  refine ⟨hmain, ?_⟩
  rw [hmain]
  have hstamp : ((List.range 105).map (fun i => ((0 : Nat), (⟨i, some i⟩ : RTMessage Nat)))).map
      (fun p => stampMessage p.1 p.2) =
      (List.range 105).map (fun i => (⟨i, some i⟩ : RTMessage Nat)) := by
    rw [List.map_map]
    apply List.map_congr_left
    intro i _
    rfl
  rw [hstamp, lastN]
  simp only [List.length_map, List.length_range]
  rw [show (105 : Nat) - 100 = 5 from rfl, ← List.map_drop]

/-- C7: `calculate_relevance` returns `min(overlap-ratio + bonus, 1.0)` with
the overlap ratio and flat 0.3 substring bonus as worded by the spec (and 0
outright for a token-free query); the result always lies in `[0, 1]`; and
`calculate_relevance("hello", "hello world")` strictly exceeds
`calculate_relevance("xyz", "hello world")`. -/
theorem C7_calculate_relevance_spec :
    (∀ query content : String,
      ContextRanker.calculate_relevance query content =
        ContextRanker.specRelevance query content) ∧
    (∀ query content : String,
      0 ≤ ContextRanker.calculate_relevance query content ∧
      ContextRanker.calculate_relevance query content ≤ 1) ∧
    ContextRanker.calculate_relevance "xyz" "hello world" <
      ContextRanker.calculate_relevance "hello" "hello world" := by
  have hval : ∀ query content : String,
      ContextRanker.calculate_relevance query content =
        ContextRanker.specRelevance query content := by
    intro query content
    simp only [ContextRanker.calculate_relevance, ContextRanker.specRelevance,
      ContextRanker.specOverlapFraction, ContextRanker.specSubstringBonus,
      List.isEmpty_iff]
    by_cases hq : tokenSet query = []
    · simp [hq]
    · simp only [hq, if_false]
      by_cases hs : isSubstring (lowerChars query) (lowerChars content) = true
      · simp [hs]
      · simp [hs]
  have hbounds : ∀ query content : String,
      0 ≤ ContextRanker.calculate_relevance query content ∧
      ContextRanker.calculate_relevance query content ≤ 1 := by
    intro query content
    simp only [ContextRanker.calculate_relevance, List.isEmpty_iff]
    by_cases hq : tokenSet query = []
    · simp [hq]
    · simp only [hq, if_false]
      have hratio : (0 : ℚ) ≤
          ((tokenSet query).countP (fun w => (tokenSet content).contains w) : ℚ) /
            ((tokenSet query).length : ℚ) :=
        div_nonneg (Nat.cast_nonneg _) (Nat.cast_nonneg _)
      constructor
      · by_cases hs : isSubstring (lowerChars query) (lowerChars content) = true
        · simp only [hs, if_true]
          exact le_min (by linarith) (by norm_num)
        · simp only [hs, if_false]
          exact le_min hratio (by norm_num)
      · by_cases hs : isSubstring (lowerChars query) (lowerChars content) = true
        · simp only [hs, if_true]
          exact min_le_right _ _
        · simp only [hs, if_false]
          exact min_le_right _ _
  refine ⟨hval, hbounds, ?_⟩
  have h1 : ContextRanker.calculate_relevance "hello" "hello world" = 1 := by
    have hc : (tokenSet "hello").countP
        (fun w => (tokenSet "hello world").contains w) = 1 := by decide
    have hlen : (tokenSet "hello").length = 1 := by decide
    have hs : isSubstring (lowerChars "hello") (lowerChars "hello world") = true := by decide
    have hne : (tokenSet "hello").isEmpty = false := by decide
    simp only [ContextRanker.calculate_relevance, hne, Bool.false_eq_true, if_false,
      hc, hs, if_true, hlen]
    norm_num
  have h0 : ContextRanker.calculate_relevance "xyz" "hello world" = 0 := by
    have hc : (tokenSet "xyz").countP
        (fun w => (tokenSet "hello world").contains w) = 0 := by decide
    have hs : isSubstring (lowerChars "xyz") (lowerChars "hello world") = false := by decide
    have hne : (tokenSet "xyz").isEmpty = false := by decide
    simp only [ContextRanker.calculate_relevance, hne, Bool.false_eq_true, if_false,
      hc, hs, Bool.true_eq_false]
    norm_num
  rw [h0, h1]
  norm_num

/-- C8: `rank_tools` scores every tool by
`min((2 × name-overlap + description-overlap) / |query-tokens|, 1.0)` (0 for
a token-free query); the query "search the web" scores the "Web Search" tool
strictly above 0.5 (it caps at exactly 1), while "bake a cake" scores it 0. -/
theorem C8_rank_tools_spec :
    (∀ (query : String) (tool : Tool),
      ContextRanker.toolScore (tokenSet query) tool =
        ContextRanker.specToolScore query tool) ∧
    (∀ (query : String) (tools : List Tool),
      ContextRanker.rank_tools query tools =
        tools.foldl
          (fun scores tool => dictInsert scores tool.id
            (ContextRanker.specToolScore query tool)) []) ∧
    (dictLookup (ContextRanker.rank_tools "search the web" [webSearchTool])
        "web_search").getD 0 > 1 / 2 ∧
    dictLookup (ContextRanker.rank_tools "bake a cake" [webSearchTool])
        "web_search" = some 0 := by
  have hscore : ∀ (query : String) (tool : Tool),
      ContextRanker.toolScore (tokenSet query) tool =
        ContextRanker.specToolScore query tool := by
    intro query tool
    simp only [ContextRanker.toolScore, ContextRanker.specToolScore,
      List.isEmpty_iff, tokenSet, wordTokens]
    by_cases hq : (findTokensAux [] (lowerChars query)).dedup = []
    · simp [hq]
    · simp only [hq, if_false]
      congr 1
      ring
  refine ⟨hscore, ?_, ?_, ?_⟩
  · intro query tools
    simp only [ContextRanker.rank_tools, hscore]
  · have hval : ContextRanker.toolScore (tokenSet "search the web") webSearchTool = 1 := by
      have hn : (tokenSet "search the web").countP
          (fun w => ((findTokensAux [] (lowerChars webSearchTool.name)).dedup).contains w)
            = 2 := by decide
      have hd : (tokenSet "search the web").countP
          (fun w =>
            ((findTokensAux [] (lowerChars webSearchTool.description)).dedup).contains w)
            = 3 := by decide
      have hlen : (tokenSet "search the web").length = 3 := by decide
      have hne : (tokenSet "search the web").isEmpty = false := by decide
      simp only [ContextRanker.toolScore, hn, hd, hlen, hne, Bool.false_eq_true, if_false]
      norm_num
    simp only [ContextRanker.rank_tools, List.foldl_cons, List.foldl_nil, hval]
    simp [dictInsert, dictLookup, webSearchTool]
    norm_num
  · have hval : ContextRanker.toolScore (tokenSet "bake a cake") webSearchTool = 0 := by
      have hn : (tokenSet "bake a cake").countP
          (fun w => ((findTokensAux [] (lowerChars webSearchTool.name)).dedup).contains w)
            = 0 := by decide
      have hd : (tokenSet "bake a cake").countP
          (fun w =>
            ((findTokensAux [] (lowerChars webSearchTool.description)).dedup).contains w)
            = 0 := by decide
      have hne : (tokenSet "bake a cake").isEmpty = false := by decide
      simp only [ContextRanker.toolScore, hn, hd, hne, Bool.false_eq_true, if_false]
      norm_num
    simp only [ContextRanker.rank_tools, List.foldl_cons, List.foldl_nil, hval]
    simp [dictInsert, dictLookup, webSearchTool]
end Nebula

